import Mathlib

/-!
Verification of the escape-time (Mandelbrot) field evaluator of this
repository.  The notebook defines two strategies:

* `mandelbrot_python height width` — scalar reference strategy: per-cell
  nested loops, at most 20 iterations of `z ← z² + c`, recording the first
  iteration index at which `|z| > 2` and leaving the sentinel `20`
  otherwise.
* `mandelbrot_numpy height width` — batched strategy: all cells advance
  through iteration `i` together; a cell whose `fractal` entry is still the
  sentinel is recorded when it first diverges, and diverged cells have their
  orbit value clamped to `2`.

The embedding is over exact rationals: a complex value is a pair of
rationals (`QC`), and the source's divergence test `abs(z) > 2`
(equivalently `z.real**2 + z.imag**2 > 4`, the form used verbatim by the
batched strategy) is the decidable test `4 < z.normSq`.  Over exact
arithmetic the two forms of the test agree, so both strategies are embedded
with the same test.  `np.ogrid[-1:0:height*1j, -1.5:0:width*1j]` is
NumPy's inclusive linear subdivision (`np.linspace`) of `height` points
across `[-1, 0]` and `width` points across `[-1.5, 0]`; `linspace` below is
its exact-arithmetic counterpart (NumPy forces the final sample to the stop
value, which in exact arithmetic coincides with the interpolation formula).
-/

/-- A complex number with exact rational real and imaginary parts. -/
structure QC where
  re : ℚ
  im : ℚ
deriving DecidableEq, Repr

namespace QC

/-- Complex addition, componentwise. -/
def add (a b : QC) : QC := ⟨a.re + b.re, a.im + b.im⟩

/-- Complex squaring: `(x + yi)² = (x² − y²) + (2xy)i`; this is `z**2` in the
source. -/
def sq (a : QC) : QC := ⟨a.re * a.re - a.im * a.im, 2 * (a.re * a.im)⟩

/-- Squared magnitude `x² + y²`; the source's divergence test `abs(z) > 2`
is equivalent (exactly, both sides being nonnegative) to `4 < normSq z`,
which is the form `z.real**2 + z.imag**2 > 4` written in `mandelbrot_numpy`. -/
def normSq (a : QC) : ℚ := a.re * a.re + a.im * a.im

end QC

/-- The orbit of the quadratic recurrence started at `z₀ = c`:
`orbit c 0 = c` and `orbit c (k+1) = (orbit c k)² + c`. -/
def orbit (c : QC) : ℕ → QC
  | 0 => c
  | k + 1 => (orbit c k).sq.add c

/-- Exact-arithmetic `np.linspace a b n` sampled at index `k`: `n` points
from `a` to `b`, both endpoints included (`n = 1` yields just `a`, matching
NumPy's `ogrid` with a complex step of magnitude 1). -/
def linspace (a b : ℚ) (n k : ℕ) : ℚ :=
  if n ≤ 1 then a else a + (k : ℚ) * ((b - a) / ((n : ℚ) - 1))

/-- Row coordinate: `y = np.ogrid[-1:0:height*1j]` sampled at row `h`. -/
def ycoord (height h : ℕ) : ℚ := linspace (-1) 0 height h

/-- Column coordinate: `x = np.ogrid[-1.5:0:width*1j]` sampled at column `w`. -/
def xcoord (width w : ℕ) : ℚ := linspace (-(3/2)) 0 width w

/-- The complex-plane coordinate `c = x + y·1j` of grid cell `(h, w)`. -/
def cgrid (height width h w : ℕ) : QC := ⟨xcoord width w, ycoord height h⟩

/-- The inner loop of `mandelbrot_python` for one cell: with `fuel`
iterations remaining and `i` the current iteration index, update
`z ← z² + c`; if `|z| > 2` return `i` (the `break` writing `fractal[h, w] = i`),
otherwise continue; when the fuel runs out return the sentinel `20` that the
array was initialised with (`np.full(c.shape, 20)`). -/
def pyLoop (c : QC) : QC → ℕ → ℕ → ℕ
  | _, 0, _ => 20
  | z, fuel + 1, i =>
    let z1 := z.sq.add c
    if 4 < z1.normSq then i else pyLoop c z1 fuel (i + 1)

/-- One cell of the scalar strategy: `z` starts at `c` and the loop runs
`for i in range(20)`. -/
def pyCell (c : QC) : ℕ := pyLoop c c 20 0

/-- `mandelbrot_python height width` as a row-major list of rows: cell
`(h, w)` holds `pyCell` of its coordinate (the cell is written by its own
inner loop on divergence and is otherwise left at the initial sentinel,
which is exactly what `pyLoop` returns when the fuel runs out). -/
def mandelbrot_python (height width : ℕ) : List (List ℕ) :=
  (List.range height).map fun h =>
    (List.range width).map fun w => pyCell (cgrid height width h w)

/-- One iteration of the `mandelbrot_numpy` loop body, restricted to a
single cell (NumPy's elementwise operations act on each cell independently).
The state is the pair `(z, fractal)` of that cell; `i` is the loop index:
`z = z**2 + c`, then `diverged = z.real**2 + z.imag**2 > 4`,
`fractal[diverging_now] = i` where `diverging_now = diverged & (fractal == 20)`,
and `z[diverged] = 2`. -/
def numpyStep (c : QC) (s : QC × ℕ) (i : ℕ) : QC × ℕ :=
  let z1 := s.1.sq.add c
  let f := if 4 < z1.normSq ∧ s.2 = 20 then i else s.2
  let z2 := if 4 < z1.normSq then (⟨2, 0⟩ : QC) else z1
  (z2, f)

/-- The per-cell state of the batched strategy after the first `n`
iterations, starting from `z = c` and `fractal = 20`. -/
def numpyTrace (c : QC) (n : ℕ) : QC × ℕ :=
  (List.range n).foldl (numpyStep c) (c, 20)

/-- One cell of the batched strategy: the `fractal` entry after all 20
iterations. -/
def numpyCell (c : QC) : ℕ := (numpyTrace c 20).2

/-- `mandelbrot_numpy height width` as a row-major list of rows. -/
def mandelbrot_numpy (height width : ℕ) : List (List ℕ) :=
  (List.range height).map fun h =>
    (List.range width).map fun w => numpyCell (cgrid height width h w)

/-- Entry `(h, w)` of a row-major field (out-of-range indices default). -/
def cellAt (f : List (List ℕ)) (h w : ℕ) : ℕ := (f.getD h []).getD w 0

/-! ### Basic facts about the scalar per-cell loop -/

/-- The orbit of `c = 0` is constantly `0`. -/
lemma orbit_zero (n : ℕ) : orbit ⟨0, 0⟩ n = ⟨0, 0⟩ := by
  induction n with
  | zero => rfl
  | succ k ih => simp [orbit, ih, QC.sq, QC.add]

/-- The scalar loop either returns the sentinel or an index in the window
`[i, i + fuel)`. -/
lemma pyLoop_le (c : QC) (fuel : ℕ) : ∀ (z : QC) (i : ℕ),
    pyLoop c z fuel i = 20 ∨ (i ≤ pyLoop c z fuel i ∧ pyLoop c z fuel i < i + fuel) := by
  induction fuel with
  | zero => intro z i; exact Or.inl rfl
  | succ fuel ih =>
    intro z i
    simp only [pyLoop]
    split
    · right; omega
    · rcases ih (z.sq.add c) (i + 1) with h | ⟨h1, h2⟩
      · left; exact h
      · right; omega

/-- If no orbit point in the remaining window diverges, the scalar loop
returns the sentinel. -/
lemma pyLoop_not_div (c : QC) (fuel : ℕ) : ∀ i : ℕ,
    (∀ j, i ≤ j → j < i + fuel → ¬ 4 < (orbit c (j + 1)).normSq) →
    pyLoop c (orbit c i) fuel i = 20 := by
  induction fuel with
  | zero => intro i _; rfl
  | succ fuel ih =>
    intro i h
    simp only [pyLoop]
    rw [show (orbit c i).sq.add c = orbit c (i + 1) from rfl,
      if_neg (h i le_rfl (by omega))]
    exact ih (i + 1) (fun j hj1 hj2 => h j (by omega) (by omega))

/-- If `j` is the first index in the remaining window whose orbit point
diverges, the scalar loop returns `j`. -/
lemma pyLoop_div (c : QC) (fuel : ℕ) : ∀ i j : ℕ, i ≤ j → j < i + fuel →
    4 < (orbit c (j + 1)).normSq →
    (∀ k, i ≤ k → k < j → ¬ 4 < (orbit c (k + 1)).normSq) →
    pyLoop c (orbit c i) fuel i = j := by
  induction fuel with
  | zero => intro i j h1 h2 _ _; omega
  | succ fuel ih =>
    intro i j hij hlt hdiv hmin
    simp only [pyLoop]
    rcases eq_or_lt_of_le hij with rfl | hij2
    · rw [show (orbit c i).sq.add c = orbit c (i + 1) from rfl, if_pos hdiv]
    · rw [show (orbit c i).sq.add c = orbit c (i + 1) from rfl,
        if_neg (hmin i le_rfl hij2)]
      exact ih (i + 1) j hij2 (by omega) hdiv (fun k hk1 hk2 => hmin k (by omega) hk2)

/-- `pyCell` characterisation, diverging case: the cell records the least
iteration index whose orbit point exceeds the radius. -/
lemma pyCell_div (c : QC) (j : ℕ) (hj : j < 20) (hdiv : 4 < (orbit c (j + 1)).normSq)
    (hmin : ∀ k, k < j → ¬ 4 < (orbit c (k + 1)).normSq) : pyCell c = j :=
  pyLoop_div c 20 0 j (Nat.zero_le j) (by omega) hdiv (fun k _ hk => hmin k hk)

/-- `pyCell` characterisation, bounded case: if no orbit point within the
budget diverges, the cell keeps the sentinel. -/
lemma pyCell_not_div (c : QC) (h : ∀ j, j < 20 → ¬ 4 < (orbit c (j + 1)).normSq) :
    pyCell c = 20 :=
  pyLoop_not_div c 20 0 (fun j _ hj => h j (by omega))

/-! ### The batched strategy agrees with the scalar strategy, cell by cell -/

/-- Unfolding one iteration of the batched per-cell trace. -/
lemma numpyTrace_succ (c : QC) (n : ℕ) :
    numpyTrace c (n + 1) = numpyStep c (numpyTrace c n) n := by
  simp [numpyTrace, List.range_succ]

/-- Once a cell's `fractal` entry differs from the sentinel, later
iterations never change it (`diverging_now` requires `fractal == 20`). -/
lemma foldl_numpyStep_frozen (c : QC) (l : List ℕ) : ∀ (z : QC) (f : ℕ), f ≠ 20 →
    (l.foldl (numpyStep c) (z, f)).2 = f := by
  induction l with
  | nil => intro z f _; rfl
  | cons a l ih =>
    intro z f hf
    rw [List.foldl_cons,
      show numpyStep c (z, f) a
          = (if 4 < (z.sq.add c).normSq then (⟨2, 0⟩ : QC) else z.sq.add c, f) by
        simp [numpyStep, hf]]
    exact ih _ f hf

/-- While a cell is still at the sentinel, the batched trace over iteration
indices `i, i+1, …, i+fuel-1` computes exactly the scalar loop. -/
lemma foldl_numpyStep_active (c : QC) (fuel : ℕ) : ∀ (i : ℕ) (z : QC), i + fuel ≤ 20 →
    ((List.range' i fuel).foldl (numpyStep c) (z, 20)).2 = pyLoop c z fuel i := by
  induction fuel with
  | zero => intro i z _; rfl
  | succ fuel ih =>
    intro i z hle
    rw [List.range'_succ, List.foldl_cons]
    by_cases hd : 4 < (z.sq.add c).normSq
    · rw [show numpyStep c (z, 20) i = ((⟨2, 0⟩ : QC), i) by simp [numpyStep, hd],
        foldl_numpyStep_frozen c _ _ i (by omega)]
      simp only [pyLoop]
      rw [if_pos hd]
    · rw [show numpyStep c (z, 20) i = (z.sq.add c, 20) by simp [numpyStep, hd],
        ih (i + 1) (z.sq.add c) (by omega)]
      simp only [pyLoop]
      rw [if_neg hd]

/-- Cell-level strategy equivalence: the batched strategy records exactly
the value the scalar strategy records. -/
lemma numpyCell_eq_pyCell (c : QC) : numpyCell c = pyCell c := by
  have h := foldl_numpyStep_active c 20 0 c (by omega)
  rw [numpyCell, numpyTrace, List.range_eq_range']
  exact h

/-- Field-level strategy equivalence, shared by several claims below. -/
lemma py_numpy_field_eq (H W : ℕ) : mandelbrot_python H W = mandelbrot_numpy H W := by
  unfold mandelbrot_python mandelbrot_numpy
  simp [numpyCell_eq_pyCell]

/-! ### Field access and shape -/

/-- Reading an in-range cell of a row-major field built from a per-cell
function returns that function's value. -/
lemma cellAt_build (g : ℕ → ℕ → ℕ) (H W h w : ℕ) (hh : h < H) (hw : w < W) :
    cellAt ((List.range H).map fun h => (List.range W).map fun w => g h w) h w = g h w := by
  unfold cellAt
  have hrow : ((List.range H).map fun h => (List.range W).map fun w => g h w).getD h []
      = (List.range W).map fun w => g h w := by
    rw [List.getD_eq_getElem _ _ (by simpa using hh)]
    simp
  rw [hrow, List.getD_eq_getElem _ _ (by simpa using hw)]
  simp

/-- Reading an in-range cell of the scalar field. -/
lemma cellAt_python (H W h w : ℕ) (hh : h < H) (hw : w < W) :
    cellAt (mandelbrot_python H W) h w = pyCell (cgrid H W h w) :=
  cellAt_build _ H W h w hh hw

/-- Reading an in-range cell of the batched field. -/
lemma cellAt_numpy (H W h w : ℕ) (hh : h < H) (hw : w < W) :
    cellAt (mandelbrot_numpy H W) h w = numpyCell (cgrid H W h w) :=
  cellAt_build _ H W h w hh hw

/-- An in-range row of a row-major field has length `W`. -/
lemma row_length_build (g : ℕ → ℕ → ℕ) (H W h : ℕ) (hh : h < H) :
    (((List.range H).map fun h => (List.range W).map fun w => g h w).getD h []).length
      = W := by
  rw [List.getD_eq_getElem _ _ (by simpa using hh)]
  simp

/-! ### Grid coordinates -/

/-- The first sample of an inclusive linear subdivision is the left bound. -/
lemma linspace_zero (a b : ℚ) (n : ℕ) : linspace a b n 0 = a := by
  unfold linspace
  split <;> simp

/-- The last of `n ≥ 2` samples of an inclusive linear subdivision is the
right bound (exactly, in rational arithmetic). -/
lemma linspace_last (a b : ℚ) (n : ℕ) (hn : 2 ≤ n) : linspace a b n (n - 1) = b := by
  unfold linspace
  rw [if_neg (by omega)]
  have h2 : (2 : ℚ) ≤ (n : ℚ) := by exact_mod_cast hn
  have hne : (n : ℚ) - 1 ≠ 0 := by linarith
  rw [Nat.cast_sub (by omega)]
  push_cast
  field_simp

/-- Consecutive samples of an `n ≥ 2`-point subdivision are spaced by the
constant step `(b - a) / (n - 1)`. -/
lemma linspace_step (a b : ℚ) (n k : ℕ) (hn : 2 ≤ n) :
    linspace a b n (k + 1) - linspace a b n k = (b - a) / ((n : ℚ) - 1) := by
  unfold linspace
  rw [if_neg (by omega), if_neg (by omega)]
  push_cast
  ring

/-- Every column coordinate is at least the left bound `-3/2`; in
particular every grid cell satisfies the hypothesis of the clamping
lemmas below. -/
lemma xcoord_ge (W w : ℕ) : -(3 / 2) ≤ xcoord W w := by
  unfold xcoord linspace
  split
  · exact le_refl _
  · rename _ => hW
    have h2 : (2 : ℚ) ≤ (W : ℚ) := by exact_mod_cast (by omega : 2 ≤ W)
    have : (0 : ℚ) ≤ (w : ℚ) * ((0 - -(3 / 2)) / ((W : ℚ) - 1)) := by
      apply mul_nonneg (by positivity)
      apply div_nonneg (by norm_num) (by linarith)
    linarith

/-! ### Clamping of diverged cells in the batched strategy -/

/-- A clamped orbit value re-triggers the divergence test on the next
iteration: `(2 + 0i)² + c = (4 + Re c) + (Im c)i` has squared magnitude
greater than `4` whenever `Re c ≥ -3/2` (true of every grid coordinate). -/
lemma clamp_rediverges (c : QC) (hc : -(3 / 2) ≤ c.re) :
    4 < (((⟨2, 0⟩ : QC)).sq.add c).normSq := by
  simp only [QC.sq, QC.add, QC.normSq]
  have h1 : (0 : ℚ) < c.re + 2 + 1 / 2 := by linarith
  nlinarith [sq_nonneg c.im, sq_nonneg (c.re + 2)]

/-- A batched step on an already-diverged cell (orbit value clamped to `2`,
`fractal` entry below the sentinel) changes nothing. -/
lemma numpyStep_frozen_id (c : QC) (hc : -(3 / 2) ≤ c.re) (f i : ℕ) (hf : f ≠ 20) :
    numpyStep c (⟨2, 0⟩, f) i = (⟨2, 0⟩, f) := by
  have hd := clamp_rediverges c hc
  simp [numpyStep, hd, hf]

/-- A cell whose `fractal` entry has left the sentinel has its orbit value
clamped at exactly `2`. -/
lemma numpyTrace_clamped (c : QC) (hc : -(3 / 2) ≤ c.re) : ∀ n : ℕ,
    (numpyTrace c n).2 ≠ 20 → (numpyTrace c n).1 = ⟨2, 0⟩ := by
  intro n
  induction n with
  | zero => intro h; exact absurd rfl h
  | succ n ih =>
    intro h
    rw [numpyTrace_succ] at h ⊢
    by_cases hd : 4 < ((numpyTrace c n).1.sq.add c).normSq
    · simp [numpyStep, hd]
    · by_cases h20 : (numpyTrace c n).2 = 20
      · exfalso
        apply h
        simp [numpyStep, hd, h20]
      · have hz := ih h20
        exfalso
        apply hd
        rw [hz]
        exact clamp_rediverges c hc

/-- After a cell diverges, every later state of the batched per-cell trace
is identical to the state at divergence: the strategy stops updating it. -/
lemma numpyTrace_frozen (c : QC) (hc : -(3 / 2) ≤ c.re) (j : ℕ)
    (hdiv : (numpyTrace c j).2 ≠ 20) :
    ∀ i, j ≤ i → numpyTrace c i = numpyTrace c j := by
  intro i hi
  induction i, hi using Nat.le_induction with
  | base => rfl
  | succ i hji ih =>
    rw [numpyTrace_succ, ih]
    have hz : (numpyTrace c j).1 = ⟨2, 0⟩ := numpyTrace_clamped c hc j hdiv
    rw [show numpyTrace c j = (⟨2, 0⟩, (numpyTrace c j).2) by rw [← hz]]
    exact numpyStep_frozen_id c hc _ i hdiv

/-!
### A store model of the batched loop's array statements

`mandelbrot_numpy` starts with `z = c`, so the name `z` initially refers to
the very array object holding the coordinates, and later executes the
in-place write `z[diverged] = 2`.  To reason about whether `c` is ever
mutated we model the complex-valued arrays with an explicit store: a list
of array values, addressed by position; allocation appends.  Per loop
iteration, in source order:

* `z = z**2 + c` evaluates elementwise from the arrays currently named
  `z` and `c`, allocates a fresh array for the result, and rebinds the
  name `z` to the fresh address;
* `fractal[diverging_now] = i` updates the integer array in place (it is
  never aliased with `c`, so it is kept as a plain value);
* `z[diverged] = 2` writes in place at the address currently bound to `z`.

The boolean masks are temporaries never aliased with `c` and are inlined.
-/

/-- The mutable state of the batched loop: the store of complex arrays,
the address bound to the name `z`, and the integer array `fractal`. -/
structure NpState where
  heap : List (List QC)
  zAddr : ℕ
  fractal : List ℕ
deriving Repr

/-- One iteration of the `mandelbrot_numpy` loop body over the store.
`cAddr` is the address bound to the name `c` (never rebound). -/
def npIter (cAddr : ℕ) (s : NpState) (i : ℕ) : NpState :=
  let carr := s.heap.getD cAddr []
  let zarr := s.heap.getD s.zAddr []
  let znew := (List.range carr.length).map fun k =>
    ((zarr.getD k ⟨0, 0⟩).sq).add (carr.getD k ⟨0, 0⟩)
  let a := s.heap.length
  let heap1 := s.heap ++ [znew]
  let fr := (List.range carr.length).map fun k =>
    if 4 < (znew.getD k ⟨0, 0⟩).normSq ∧ s.fractal.getD k 0 = 20 then i
    else s.fractal.getD k 0
  let zclamped := znew.map fun zk => if 4 < zk.normSq then (⟨2, 0⟩ : QC) else zk
  { heap := heap1.set a zclamped, zAddr := a, fractal := fr }

/-- The state just before the loop: the coordinate array lives at address
`0`, the name `z` is bound to that same address (`z = c`), and `fractal`
is filled with the sentinel. -/
def npInit (carr : List QC) : NpState :=
  { heap := [carr], zAddr := 0, fractal := List.replicate carr.length 20 }

/-- The store state after the first `n` iterations of the batched loop. -/
def npRun (carr : List QC) (n : ℕ) : NpState :=
  (List.range n).foldl (npIter 0) (npInit carr)

/-- One store iteration never touches address `0`: the fresh allocation
appends, and the in-place clamp writes at the fresh (nonzero) address. -/
lemma npIter_preserves (carr : List QC) (s : NpState) (i : ℕ)
    (h1 : 0 < s.heap.length) (h2 : s.heap.getD 0 [] = carr) :
    0 < (npIter 0 s i).heap.length ∧ (npIter 0 s i).heap.getD 0 [] = carr ∧
      0 < (npIter 0 s i).zAddr := by
  refine ⟨by simp [npIter], ?_, by simpa [npIter] using h1⟩
  unfold npIter
  rw [List.getD_eq_getElem _ _ (by simp)]
  rw [List.getElem_set_ne (by omega)]
  rw [List.getElem_append_left (by omega)]
  rw [← List.getD_eq_getElem _ _ h1]
  exact h2

/-- Address `0` of the store is untouched by any number of iterations. -/
lemma npFold_preserves (carr : List QC) : ∀ (l : List ℕ) (s : NpState),
    0 < s.heap.length → s.heap.getD 0 [] = carr →
    0 < (l.foldl (npIter 0) s).heap.length ∧
      (l.foldl (npIter 0) s).heap.getD 0 [] = carr := by
  intro l
  induction l with
  | nil => intro s h1 h2; exact ⟨h1, h2⟩
  | cons a l ih =>
    intro s h1 h2
    rw [List.foldl_cons]
    have h := npIter_preserves carr s a h1 h2
    exact ih _ h.1 h.2.1

/-- Unfolding one iteration of the store model. -/
lemma npRun_succ (carr : List QC) (n : ℕ) :
    npRun carr (n + 1) = npIter 0 (npRun carr n) n := by
  unfold npRun
  rw [List.range_succ, List.foldl_append, List.foldl_cons, List.foldl_nil]

/-- The invariants of `npFold_preserves`, specialised to `npRun`. -/
lemma npRun_heap0 (carr : List QC) (n : ℕ) :
    0 < (npRun carr n).heap.length ∧ (npRun carr n).heap.getD 0 [] = carr :=
  npFold_preserves carr (List.range n) (npInit carr)
    (by simp [npInit]) (by simp [npInit])

/-- Reading an elementwise combination of a mapped array and the base
array, cell by cell over the index range, is a map over the base array. -/
lemma map_range_getD_zz (carr : List QC) (g : QC → QC) (F : QC → QC → QC) :
    ((List.range carr.length).map
      fun k => F ((carr.map g).getD k ⟨0, 0⟩) (carr.getD k ⟨0, 0⟩))
    = carr.map fun ck => F (g ck) ck := by
  apply List.ext_getElem (by simp)
  intro i h1 h2
  have hi : i < carr.length := by simpa using h2
  simp only [List.getElem_map, List.getElem_range]
  rw [List.getD_eq_getElem _ _ (by simpa using hi), List.getD_eq_getElem _ _ hi]
  simp

/-- The same for a combination of two mapped arrays of different types. -/
lemma map_range_getD_zf (carr : List QC) (g : QC → QC) (f : QC → ℕ) (F : QC → ℕ → ℕ) :
    ((List.range carr.length).map
      fun k => F ((carr.map g).getD k ⟨0, 0⟩) ((carr.map f).getD k 0))
    = carr.map fun ck => F (g ck) (f ck) := by
  apply List.ext_getElem (by simp)
  intro i h1 h2
  have hi : i < carr.length := by simpa using h2
  simp only [List.getElem_map, List.getElem_range]
  rw [List.getD_eq_getElem _ _ (by simpa using hi),
    List.getD_eq_getElem _ _ (by simpa using hi)]
  simp

/-- Faithfulness of the store model: after `n` iterations, the integer
array `fractal` and the array currently bound to the name `z` hold,
cell by cell, exactly the per-cell batched trace after `n` iterations. -/
lemma npRun_tracks (carr : List QC) : ∀ n : ℕ,
    (npRun carr n).fractal = (carr.map fun ck => (numpyTrace ck n).2) ∧
    (npRun carr n).heap.getD (npRun carr n).zAddr []
      = (carr.map fun ck => (numpyTrace ck n).1) := by
  intro n
  induction n with
  | zero =>
    constructor
    · rw [show (fun ck : QC => (numpyTrace ck 0).2) = fun _ => 20 from rfl,
        List.map_const']
      rfl
    · rw [show (fun ck : QC => (numpyTrace ck 0).1) = fun ck => ck from rfl]
      simp [npRun, npInit]
  | succ n ih =>
    obtain ⟨ihf, ihz⟩ := ih
    have h0 := npRun_heap0 carr n
    rw [npRun_succ]
    unfold npIter
    rw [h0.2, ihf, ihz]
    simp only [List.length_map]
    rw [map_range_getD_zz carr (fun ck => (numpyTrace ck n).1)
      (fun z ck => z.sq.add ck)]
    rw [map_range_getD_zf carr
      (fun ck => ((numpyTrace ck n).1).sq.add ck)
      (fun ck => (numpyTrace ck n).2)
      (fun z f => if 4 < z.normSq ∧ f = 20 then n else f)]
    constructor
    · apply List.map_congr_left
      intro ck _
      rw [numpyTrace_succ]
      rfl
    · rw [List.set_append_right _ _ (le_refl _), Nat.sub_self, List.set_cons_zero,
        List.getD_append_right _ _ _ _ (le_refl _), Nat.sub_self]
      rw [List.getD_cons_zero, List.map_map]
      apply List.map_congr_left
      intro ck _
      rw [numpyTrace_succ]
      rfl

/-- Capstone for the store model: its final `fractal` array is exactly the
per-cell batched result `numpyCell`, so `npIter` is a faithful model of the
loop of `mandelbrot_numpy`. -/
lemma npRun_fractal_eq_numpyCell (carr : List QC) :
    (npRun carr 20).fractal = carr.map numpyCell :=
  (npRun_tracks carr 20).1

/-!
### Integer-argument behaviour (no input validation in the source)

The notebook functions take plain Python integers and perform no
validation.  `np.ogrid[a:b:n*1j]` builds `int(abs(n*1j)) = |n|` samples,
so the allocated field has shape `(|height|, |width|)`; the scalar
strategy's loops `for h in range(height)`, `for w in range(width)` run
only over nonnegative indices below the (signed) arguments, leaving every
other cell at the sentinel, while the batched strategy's elementwise
operations process every allocated cell.  Neither function raises for
non-positive dimensions.
-/

/-- `mandelbrot_python` on arbitrary integer arguments. -/
def mandelbrot_python_int (height width : ℤ) : List (List ℕ) :=
  (List.range height.natAbs).map fun (h : ℕ) =>
    (List.range width.natAbs).map fun (w : ℕ) =>
      if ((h : ℤ) < height ∧ (w : ℤ) < width) then
        pyCell (cgrid height.natAbs width.natAbs h w)
      else 20

/-- `mandelbrot_numpy` on arbitrary integer arguments. -/
def mandelbrot_numpy_int (height width : ℤ) : List (List ℕ) :=
  (List.range height.natAbs).map fun h =>
    (List.range width.natAbs).map fun w =>
      numpyCell (cgrid height.natAbs width.natAbs h w)

/-- On positive arguments the integer-argument model coincides with the
natural-number model of the scalar strategy. -/
lemma mandelbrot_python_int_coe (H W : ℕ) :
    mandelbrot_python_int (H : ℤ) (W : ℤ) = mandelbrot_python H W := by
  unfold mandelbrot_python_int mandelbrot_python
  simp only [Int.natAbs_ofNat]
  apply List.map_congr_left
  intro h hh
  apply List.map_congr_left
  intro w hw
  rw [List.mem_range] at hh hw
  rw [if_pos ⟨by exact_mod_cast hh, by exact_mod_cast hw⟩]

/-! ## The claims -/

/-- C1: for every positive grid and every in-range cell, the scalar field's
value at that cell is the least iteration index `i ∈ [0, 20)` such that the
orbit `z₀ = c`, `z_{k+1} = z_k² + c` satisfies `|z_{i+1}| > 2` (expressed
exactly as `normSq z > 4`; iteration `0` already applies one update), and
is the sentinel `20` when no index within the budget diverges. -/
theorem c1_scalar_escape_time (H W h w : ℕ) (hH : 0 < H) (hW : 0 < W)
    (hh : h < H) (hw : w < W) :
    (cellAt (mandelbrot_python H W) h w = 20 ∧
      ∀ i, i < 20 → (orbit (cgrid H W h w) (i + 1)).normSq ≤ 4) ∨
    (cellAt (mandelbrot_python H W) h w < 20 ∧
      4 < (orbit (cgrid H W h w) (cellAt (mandelbrot_python H W) h w + 1)).normSq ∧
      ∀ j, j < cellAt (mandelbrot_python H W) h w →
        (orbit (cgrid H W h w) (j + 1)).normSq ≤ 4) := by
  rw [cellAt_python H W h w hh hw]
  set c := cgrid H W h w with hc
  by_cases hex : ∃ i, i < 20 ∧ 4 < (orbit c (i + 1)).normSq
  · right
    have hspec := Nat.find_spec hex
    have hmin : ∀ k, k < Nat.find hex → ¬(k < 20 ∧ 4 < (orbit c (k + 1)).normSq) :=
      fun k hk => Nat.find_min hex hk
    have hcell : pyCell c = Nat.find hex :=
      pyCell_div c _ hspec.1 hspec.2
        (fun k hk hdk => (hmin k hk) ⟨by omega, hdk⟩)
    rw [hcell]
    refine ⟨hspec.1, hspec.2, fun j hj => not_lt.mp (fun hdj => (hmin j hj) ⟨?_, hdj⟩)⟩
    omega
  · left
    push_neg at hex
    exact ⟨pyCell_not_div c (fun j hj => not_lt.mpr (hex j hj)), hex⟩

/-- Witness for C1 at the concrete cell `(0, 0)` of a `2 × 2` grid. -/
theorem c1_scalar_escape_time_witness :
    (0 < 2 ∧ 0 < 2 ∧ 0 < 2 ∧ 0 < 2) ∧
    ((cellAt (mandelbrot_python 2 2) 0 0 = 20 ∧
        ∀ i, i < 20 → (orbit (cgrid 2 2 0 0) (i + 1)).normSq ≤ 4) ∨
      (cellAt (mandelbrot_python 2 2) 0 0 < 20 ∧
        4 < (orbit (cgrid 2 2 0 0) (cellAt (mandelbrot_python 2 2) 0 0 + 1)).normSq ∧
        ∀ j, j < cellAt (mandelbrot_python 2 2) 0 0 →
          (orbit (cgrid 2 2 0 0) (j + 1)).normSq ≤ 4)) :=
  ⟨⟨by decide, by decide, by decide, by decide⟩,
    c1_scalar_escape_time 2 2 0 0 (by decide) (by decide) (by decide) (by decide)⟩

/-- C2: the scalar strategy and the batched strategy produce bit-identical
integer escape fields on every grid (in exact arithmetic the two
divergence tests `abs(z) > 2` and `z.real**2 + z.imag**2 > 4` coincide). -/
theorem c2_strategy_equivalence (H W : ℕ) :
    mandelbrot_python H W = mandelbrot_numpy H W :=
  py_numpy_field_eq H W

/-- C4: for every grid with `height ≥ 2` and `width ≥ 2`, the last cell
`(height-1, width-1)` has coordinate `c = 0`, and its value in the scalar
field is the sentinel `20`, because the orbit of `0` stays at `0`. -/
theorem c4_origin_cell (H W : ℕ) (hH : 2 ≤ H) (hW : 2 ≤ W) :
    cgrid H W (H - 1) (W - 1) = ⟨0, 0⟩ ∧
    cellAt (mandelbrot_python H W) (H - 1) (W - 1) = 20 := by
  have hc : cgrid H W (H - 1) (W - 1) = ⟨0, 0⟩ := by
    unfold cgrid xcoord ycoord
    rw [linspace_last _ _ _ hW, linspace_last _ _ _ hH]
  refine ⟨hc, ?_⟩
  rw [cellAt_python H W _ _ (by omega) (by omega), hc]
  apply pyCell_not_div
  intro j hj
  rw [orbit_zero]
  norm_num [QC.normSq]

/-- Witness for C4 on the concrete `2 × 2` grid. -/
theorem c4_origin_cell_witness :
    (2 ≤ 2 ∧ 2 ≤ 2) ∧
    (cgrid 2 2 (2 - 1) (2 - 1) = ⟨0, 0⟩ ∧
      cellAt (mandelbrot_python 2 2) (2 - 1) (2 - 1) = 20) :=
  ⟨⟨by decide, by decide⟩, c4_origin_cell 2 2 (by decide) (by decide)⟩

/-- C5: every in-range cell of both strategies' fields lies in `[0, 20]`
(the values are naturals, so the lower bound holds by type; the upper bound
is proved). -/
theorem c5_range_invariant (H W h w : ℕ) (hh : h < H) (hw : w < W) :
    cellAt (mandelbrot_python H W) h w ≤ 20 ∧
    cellAt (mandelbrot_numpy H W) h w ≤ 20 := by
  rw [cellAt_python H W h w hh hw, cellAt_numpy H W h w hh hw, numpyCell_eq_pyCell]
  have h := pyLoop_le (cgrid H W h w) 20 (cgrid H W h w) 0
  unfold pyCell
  rcases h with h | ⟨h1, h2⟩
  · rw [h]; exact ⟨le_refl 20, le_refl 20⟩
  · exact ⟨by omega, by omega⟩

/-- Witness for C5 at the concrete cell `(0, 0)` of a `1 × 1` grid. -/
theorem c5_range_invariant_witness :
    (0 < 1 ∧ 0 < 1) ∧
    (cellAt (mandelbrot_python 1 1) 0 0 ≤ 20 ∧
      cellAt (mandelbrot_numpy 1 1) 0 0 ≤ 20) :=
  ⟨⟨by decide, by decide⟩, c5_range_invariant 1 1 0 0 (by decide) (by decide)⟩

/-- C6: both fields have exactly `height` rows, and every in-range row has
exactly `width` cells, each holding a (defined, total) value. -/
theorem c6_shape (H W h : ℕ) (hh : h < H) :
    (mandelbrot_python H W).length = H ∧
    ((mandelbrot_python H W).getD h []).length = W ∧
    (mandelbrot_numpy H W).length = H ∧
    ((mandelbrot_numpy H W).getD h []).length = W :=
  ⟨by simp [mandelbrot_python], row_length_build _ H W h hh,
    by simp [mandelbrot_numpy], row_length_build _ H W h hh⟩

/-- Witness for C6 on the concrete `1 × 1` grid. -/
theorem c6_shape_witness :
    0 < 1 ∧
    ((mandelbrot_python 1 1).length = 1 ∧
      ((mandelbrot_python 1 1).getD 0 []).length = 1 ∧
      (mandelbrot_numpy 1 1).length = 1 ∧
      ((mandelbrot_numpy 1 1).getD 0 []).length = 1) :=
  ⟨by decide, c6_shape 1 1 0 (by decide)⟩

/-- C7: the grid is the inclusive uniform linear subdivision: row `0` has
imaginary part `-1`, row `height-1` has imaginary part `0`, column `0` has
real part `-3/2`, column `width-1` has real part `0`, and consecutive rows
and columns are spaced by the constant steps `1/(height-1)` and
`(3/2)/(width-1)`. -/
theorem c7_linear_grid (H W : ℕ) (hH : 1 < H) (hW : 1 < W) :
    (∀ w, (cgrid H W 0 w).im = -1) ∧
    (∀ w, (cgrid H W (H - 1) w).im = 0) ∧
    (∀ h, (cgrid H W h 0).re = -(3 / 2)) ∧
    (∀ h, (cgrid H W h (W - 1)).re = 0) ∧
    (∀ h w, (cgrid H W (h + 1) w).im - (cgrid H W h w).im = 1 / ((H : ℚ) - 1)) ∧
    (∀ h w, (cgrid H W h (w + 1)).re - (cgrid H W h w).re = (3 / 2) / ((W : ℚ) - 1)) := by
  refine ⟨fun w => ?_, fun w => ?_, fun h => ?_, fun h => ?_, fun h w => ?_, fun h w => ?_⟩
  · exact linspace_zero (-1) 0 H
  · exact linspace_last (-1) 0 H (by omega)
  · exact linspace_zero (-(3 / 2)) 0 W
  · exact linspace_last (-(3 / 2)) 0 W (by omega)
  · rw [show (cgrid H W (h + 1) w).im = ycoord H (h + 1) from rfl,
      show (cgrid H W h w).im = ycoord H h from rfl]
    unfold ycoord
    rw [linspace_step (-1) 0 H h (by omega)]
    norm_num
  · rw [show (cgrid H W h (w + 1)).re = xcoord W (w + 1) from rfl,
      show (cgrid H W h w).re = xcoord W w from rfl]
    unfold xcoord
    rw [linspace_step (-(3 / 2)) 0 W w (by omega)]
    norm_num

/-- Witness for C7 on the concrete `2 × 2` grid. -/
theorem c7_linear_grid_witness :
    (1 < 2 ∧ 1 < 2) ∧
    ((∀ w, (cgrid 2 2 0 w).im = -1) ∧
      (∀ w, (cgrid 2 2 (2 - 1) w).im = 0) ∧
      (∀ h, (cgrid 2 2 h 0).re = -(3 / 2)) ∧
      (∀ h, (cgrid 2 2 h (2 - 1)).re = 0) ∧
      (∀ h w, (cgrid 2 2 (h + 1) w).im - (cgrid 2 2 h w).im = 1 / ((2 : ℚ) - 1)) ∧
      (∀ h w, (cgrid 2 2 h (w + 1)).re - (cgrid 2 2 h w).re = (3 / 2) / ((2 : ℚ) - 1))) :=
  ⟨⟨by decide, by decide⟩, c7_linear_grid 2 2 (by decide) (by decide)⟩

/-- C8: in the batched strategy, a cell that has already diverged by
iteration `j` (its `fractal` entry left the sentinel) is never updated
again: every later per-cell state is identical to the state at divergence,
with the orbit value held at the clamp `2`; meanwhile a cell still at the
sentinel keeps being advanced by the recurrence `z ← z² + c` (unless that
very update diverges, in which case it is clamped). -/
theorem c8_frozen_cells (H W h w j i : ℕ) (hh : h < H) (hw : w < W) (hji : j ≤ i)
    (hdiv : (numpyTrace (cgrid H W h w) j).2 ≠ 20) :
    numpyTrace (cgrid H W h w) i = numpyTrace (cgrid H W h w) j ∧
    (numpyTrace (cgrid H W h w) i).1 = ⟨2, 0⟩ ∧
    (∀ n : ℕ, (numpyTrace (cgrid H W h w) n).2 = 20 →
      4 < ((numpyTrace (cgrid H W h w) n).1.sq.add (cgrid H W h w)).normSq ∨
      (numpyTrace (cgrid H W h w) (n + 1)).1
        = (numpyTrace (cgrid H W h w) n).1.sq.add (cgrid H W h w)) := by
  have hc : -(3 / 2) ≤ (cgrid H W h w).re := xcoord_ge W w
  refine ⟨numpyTrace_frozen _ hc j hdiv i hji, ?_, ?_⟩
  · rw [numpyTrace_frozen _ hc j hdiv i hji]
    exact numpyTrace_clamped _ hc j hdiv
  · intro n h20
    by_cases hd : 4 < ((numpyTrace (cgrid H W h w) n).1.sq.add (cgrid H W h w)).normSq
    · exact Or.inl hd
    · right
      rw [numpyTrace_succ]
      simp [numpyStep, hd]

/-- Witness for C8: cell `(0, 0)` of the `2 × 2` grid has coordinate
`-3/2 - i` and diverges at iteration `0`, so its state is frozen from
iteration `1` on. -/
theorem c8_frozen_cells_witness :
    (0 < 2 ∧ 0 < 2 ∧ 1 ≤ 2 ∧ (numpyTrace (cgrid 2 2 0 0) 1).2 ≠ 20) ∧
    (numpyTrace (cgrid 2 2 0 0) 2 = numpyTrace (cgrid 2 2 0 0) 1 ∧
      (numpyTrace (cgrid 2 2 0 0) 2).1 = ⟨2, 0⟩ ∧
      (∀ n : ℕ, (numpyTrace (cgrid 2 2 0 0) n).2 = 20 →
        4 < ((numpyTrace (cgrid 2 2 0 0) n).1.sq.add (cgrid 2 2 0 0)).normSq ∨
        (numpyTrace (cgrid 2 2 0 0) (n + 1)).1
          = (numpyTrace (cgrid 2 2 0 0) n).1.sq.add (cgrid 2 2 0 0))) := by
  have hcg : cgrid 2 2 0 0 = (⟨-(3 / 2), -1⟩ : QC) := by
    norm_num [cgrid, xcoord, ycoord, linspace]
  have h1 : numpyTrace (⟨-(3 / 2), -1⟩ : QC) 1
      = numpyStep ⟨-(3 / 2), -1⟩ (⟨-(3 / 2), -1⟩, 20) 0 := by
    rw [show (1 : ℕ) = 0 + 1 from rfl, numpyTrace_succ]
    rfl
  have hdiv : (numpyTrace (cgrid 2 2 0 0) 1).2 ≠ 20 := by
    rw [hcg, h1]
    norm_num [numpyStep, QC.sq, QC.add, QC.normSq]
  exact ⟨⟨by decide, by decide, by decide, hdiv⟩,
    c8_frozen_cells 2 2 0 0 1 2 (by decide) (by decide) (by decide) hdiv⟩

/-- C9: both strategies are deterministic — repeated invocations with
identical arguments produce identical fields, and the result is moreover
independent of the strategy.  Both embedded functions are pure functions of
`(height, width)`; the source touches no external state. -/
theorem c9_determinism (H W : ℕ) :
    mandelbrot_python H W = mandelbrot_python H W ∧
    mandelbrot_numpy H W = mandelbrot_numpy H W ∧
    mandelbrot_python H W = mandelbrot_numpy H W :=
  ⟨rfl, rfl, py_numpy_field_eq H W⟩

/-- C10: in the store model of `mandelbrot_numpy`, although `z` is
initially bound to the coordinate array itself (`z = c` at address `0`)
and `z[diverged] = 2` writes in place, after any positive number of
iterations the coordinate array at address `0` is unchanged, and the name
`z` is bound to a fresh address distinct from `c`'s (the rebinding
`z = z**2 + c` happens before the iteration's in-place write). -/
theorem c10_c_array_never_mutated (carr : List QC) (n : ℕ) (hn : 0 < n) :
    (npRun carr n).heap.getD 0 [] = carr ∧ 0 < (npRun carr n).zAddr := by
  obtain ⟨m, rfl⟩ : ∃ m, n = m + 1 := ⟨n - 1, by omega⟩
  unfold npRun
  rw [List.range_succ, List.foldl_append, List.foldl_cons, List.foldl_nil]
  have hpre := npFold_preserves carr (List.range m) (npInit carr)
    (by simp [npInit]) (by simp [npInit])
  have hstep := npIter_preserves carr _ m hpre.1 hpre.2
  exact ⟨hstep.2.1, hstep.2.2⟩

/-- C3, counterexample: invoking either evaluator with a non-positive
dimension does NOT fail with an `InvalidArgument` error — the source
performs no validation.  With `height = 0` both functions return an empty
field; with `width = -1` the scalar strategy returns a `(height, 1)` field
(NumPy's `ogrid` allocates `int(abs(-1j)) = 1` column) left entirely at
the sentinel because `range(-1)` is empty.  A field is returned in every
case, contradicting the claim's "must not return any field". -/
theorem c3_boundary_rejection_counterexample :
    mandelbrot_python_int 0 5 = [] ∧
    mandelbrot_numpy_int 0 5 = [] ∧
    mandelbrot_python_int 3 (-1) = [[20], [20], [20]] := by
  refine ⟨rfl, rfl, ?_⟩
  decide

/-- C3 as amended: a call with a non-positive dimension is not rejected
and performs no per-cell iteration in the scalar strategy: it returns a
field of shape `(|height|, |width|)` with every cell still at the sentinel
`20` (empty when a dimension is `0`); the batched strategy likewise
returns for `height = 0` an empty field.  No error is raised and nothing
is clamped. -/
theorem c3_no_validation_amended (height width : ℤ) (h : height ≤ 0 ∨ width ≤ 0) :
    mandelbrot_python_int height width
      = List.replicate height.natAbs (List.replicate width.natAbs 20) ∧
    (height = 0 → mandelbrot_numpy_int height width = []) := by
  constructor
  · have hcell : ∀ hh ww : ℕ, ¬(((hh : ℤ) < height) ∧ ((ww : ℤ) < width)) := by
      intro hh ww hcontra
      rcases h with h | h <;> omega
    unfold mandelbrot_python_int
    have hrow : ∀ hh : ℕ,
        ((List.range width.natAbs).map fun (ww : ℕ) =>
          if ((hh : ℤ) < height ∧ (ww : ℤ) < width) then
            pyCell (cgrid height.natAbs width.natAbs hh ww)
          else 20)
        = List.replicate width.natAbs 20 := by
      intro hh
      rw [show (fun (ww : ℕ) =>
          if ((hh : ℤ) < height ∧ (ww : ℤ) < width) then
            pyCell (cgrid height.natAbs width.natAbs hh ww)
          else 20) = fun _ => (20 : ℕ) from funext fun ww => if_neg (hcell hh ww)]
      rw [List.map_const', List.length_range]
    rw [show (fun (hh : ℕ) =>
        (List.range width.natAbs).map fun (ww : ℕ) =>
          if ((hh : ℤ) < height ∧ (ww : ℤ) < width) then
            pyCell (cgrid height.natAbs width.natAbs hh ww)
          else 20) = fun _ => List.replicate width.natAbs 20 from funext hrow]
    rw [List.map_const', List.length_range]
  · intro h0
    subst h0
    rfl

/-- Witness for the amended C3 at `height = 0`, `width = 5`. -/
theorem c3_no_validation_amended_witness :
    ((0 : ℤ) ≤ 0 ∨ (5 : ℤ) ≤ 0) ∧
    (mandelbrot_python_int 0 5
        = List.replicate (0 : ℤ).natAbs (List.replicate (5 : ℤ).natAbs 20) ∧
      ((0 : ℤ) = 0 → mandelbrot_numpy_int 0 5 = [])) :=
  ⟨Or.inl (by decide), c3_no_validation_amended 0 5 (Or.inl (by decide))⟩

/-- Witness for C10: a one-cell coordinate array run for the full 20
iterations. -/
theorem c10_c_array_never_mutated_witness :
    0 < 20 ∧
    ((npRun [(⟨0, 0⟩ : QC)] 20).heap.getD 0 [] = [(⟨0, 0⟩ : QC)] ∧
      0 < (npRun [(⟨0, 0⟩ : QC)] 20).zAddr) :=
  ⟨by decide, c10_c_array_never_mutated [(⟨0, 0⟩ : QC)] 20 (by decide)⟩

